import Mathlib

/-!
Verification of the StarCraft 2 mission-order entry-rule engine
(`worlds/sc2/mission_order/entry_rules.py`).

The engine has two mirrored hierarchies: live rules (`EntryRule`, holding
mission objects) and data rules (`RuleData`, holding integer mission ids),
with a conversion `to_slot_data`, a compiled predicate form `to_lambda`,
a structural payload parser `parse_from_dict`, and a tooltip renderer.

Python sets are modelled as `Finset`, Python `int` as `Int`, and string
dictionaries as association lists with first-match lookup.  Recursive rule
trees (a sub-rule holds a list of child rules) are nested inductives; each
recursive operation is defined together with an explicit helper walking the
child list, mirroring the Python list comprehensions.
-/

/-- A mission of the mission table: a stable integer id and a display name. -/
structure SC2Mission where
  id : Int
  mission_name : String
deriving DecidableEq

/-- A mission-order node.  `mission` is the underlying mission; `beat_item`
models the `beat_item()` completion-token accessor used by `to_lambda`. -/
structure SC2MOGenMission where
  mission : SC2Mission
  beat_item : String
deriving DecidableEq

/-- The external `CollectionState` capability object, at the interface the
rules use: a `has` query for one token and a `has_all` query for a batch of
tokens (the batch is produced by iterating a Python set, so its order is
unspecified and it is modelled as a multiset). -/
structure CollectionState where
  has : String → Int → Bool
  has_all : Multiset String → Int → Bool

/-- The live rule hierarchy: `beatRule` is `BeatMissionsEntryRule`,
`countRule` is `CountMissionsEntryRule`, `subRule` is `SubRuleEntryRule`.
Constructor fields hold the stored (post-`__init__`) attribute values. -/
inductive EntryRule where
  | beatRule (missions_to_beat : Finset SC2MOGenMission)
      (visual_reqs : List (String ⊕ SC2MOGenMission))
  | countRule (missions_to_count : Finset SC2MOGenMission) (target_amount : Int)
      (visual_reqs : List (String ⊕ SC2MOGenMission))
  | subRule (rules_to_check : List EntryRule) (target_amount : Int)

/-- Python `BeatMissionsEntryRule.__init__`: stores both fields unchanged. -/
def BeatMissionsEntryRule.init (missions_to_beat : Finset SC2MOGenMission)
    (visual_reqs : List (String ⊕ SC2MOGenMission)) : EntryRule :=
  .beatRule missions_to_beat visual_reqs

/-- Python `CountMissionsEntryRule.__init__`: clamps `target_amount` to the size of
`missions_to_count` when it is `-1` or exceeds that size. -/
def CountMissionsEntryRule.init (missions_to_count : Finset SC2MOGenMission)
    (target_amount : Int) (visual_reqs : List (String ⊕ SC2MOGenMission)) : EntryRule :=
  .countRule missions_to_count
    (if target_amount = -1 ∨ target_amount > (missions_to_count.card : Int) then
      (missions_to_count.card : Int)
    else target_amount)
    visual_reqs

/-- Python `SubRuleEntryRule.__init__`: clamps `target_amount` to the number of
child rules when it is `-1` or exceeds that number. -/
def SubRuleEntryRule.init (rules_to_check : List EntryRule) (target_amount : Int) : EntryRule :=
  .subRule rules_to_check
    (if target_amount = -1 ∨ target_amount > (rules_to_check.length : Int) then
      (rules_to_check.length : Int)
    else target_amount)

/-- Reads the stored `target_amount` attribute of a count or sub rule
(`0` for a beat rule, which has no such attribute). -/
def EntryRule.storedTarget : EntryRule → Int
  | .beatRule _ _ => 0
  | .countRule _ target_amount _ => target_amount
  | .subRule _ target_amount => target_amount

mutual

/-- Method `is_fulfilled` of the live hierarchy: beat checks
`beaten_missions.issuperset(missions_to_beat)`, count compares
`target_amount` with the size of the intersection, sub compares
`target_amount` with the number of fulfilled children. -/
def EntryRule.is_fulfilled : EntryRule → Finset SC2MOGenMission → Bool
  | .beatRule missions_to_beat _, beaten_missions =>
      decide (missions_to_beat ⊆ beaten_missions)
  | .countRule missions_to_count target_amount _, beaten_missions =>
      decide (target_amount ≤ ((beaten_missions ∩ missions_to_count).card : Int))
  | .subRule rules_to_check target_amount, beaten_missions =>
      decide (target_amount ≤ (fulfilledCount rules_to_check beaten_missions : Int))

/-- Python `sum(rule.is_fulfilled(beaten_missions) for rule in rules)`: the number
of fulfilled rules in the list. -/
def fulfilledCount : List EntryRule → Finset SC2MOGenMission → Nat
  | [], _ => 0
  | r :: rs, beaten_missions =>
      (if r.is_fulfilled beaten_missions then 1 else 0) + fulfilledCount rs beaten_missions

end

/-- Python `EntryRule.is_always_fulfilled`: evaluation against the empty set. -/
def EntryRule.is_always_fulfilled (r : EntryRule) : Bool :=
  r.is_fulfilled ∅

/-- The data rule hierarchy: `beatData` is `BeatMissionsRuleData`,
`countData` is `CountMissionsRuleData`, `subData` is `SubRuleRuleData`. -/
inductive RuleData where
  | beatData (mission_ids : Finset Int) (visual_reqs : List (String ⊕ Int))
  | countData (mission_ids : Finset Int) (amount : Int) (visual_reqs : List (String ⊕ Int))
  | subData (sub_rules : List RuleData) (amount : Int)

mutual

/-- Method `is_fulfilled` of the data hierarchy, over integer mission ids. -/
def RuleData.is_fulfilled : RuleData → Finset Int → Bool
  | .beatData mission_ids _, beaten_missions =>
      decide (mission_ids ⊆ beaten_missions)
  | .countData mission_ids amount _, beaten_missions =>
      decide (amount ≤ ((beaten_missions ∩ mission_ids).card : Int))
  | .subData sub_rules amount, beaten_missions =>
      decide (amount ≤ (dataFulfilledCount sub_rules beaten_missions : Nat))

/-- Python `sum(rule.is_fulfilled(beaten_missions) for rule in sub_rules)`. -/
def dataFulfilledCount : List RuleData → Finset Int → Nat
  | [], _ => 0
  | r :: rs, beaten_missions =>
      (if r.is_fulfilled beaten_missions then 1 else 0) + dataFulfilledCount rs beaten_missions

end

/-- Python `SubRuleRuleData.empty()`: the zero-child, zero-amount sub rule. -/
def SubRuleRuleData.empty : RuleData :=
  .subData [] 0

/-- Resolution of a visual requirement during `to_slot_data`:
`req if type(req) == str else req.mission.id`. -/
def resolveReq : String ⊕ SC2MOGenMission → String ⊕ Int
  | .inl s => .inl s
  | .inr m => .inr m.mission.id

mutual

/-- Method `to_slot_data`: maps each live variant to its data variant, taking the
image of the mission set under `.mission.id` and resolving visual
requirements; the stored target amount is passed through unchanged. -/
def EntryRule.to_slot_data : EntryRule → RuleData
  | .beatRule missions_to_beat visual_reqs =>
      .beatData (missions_to_beat.image (fun m => m.mission.id)) (visual_reqs.map resolveReq)
  | .countRule missions_to_count target_amount visual_reqs =>
      .countData (missions_to_count.image (fun m => m.mission.id)) target_amount
        (visual_reqs.map resolveReq)
  | .subRule rules_to_check target_amount =>
      .subData (slotDataList rules_to_check) target_amount

/-- Python `[rule.to_slot_data() for rule in rules_to_check]`. -/
def slotDataList : List EntryRule → List RuleData
  | [] => []
  | r :: rs => r.to_slot_data :: slotDataList rs

end

/-- Python `sum(state.has(mission.beat_item(), player) for mission in missions)`:
the number of missions of the multiset whose completion token is held. -/
def hasCount (state : CollectionState) (missions : Multiset SC2MOGenMission) (player : Int) : Nat :=
  (missions.map (fun m => if state.has m.beat_item player then 1 else 0)).sum

/-- Python `sum(sub_lambda(state) for sub_lambda in sub_lambdas)`. -/
def trueCount : List Bool → Nat
  | [] => 0
  | b :: bs => (if b then 1 else 0) + trueCount bs

mutual

/-- Method `to_lambda`: compiles a live rule into a predicate over the external
state.  Beat queries `has_all` on the batch of completion tokens, count
compares the target with the number of held tokens, sub precompiles the
child predicates and compares the target with the number of true ones. -/
def EntryRule.to_lambda : EntryRule → Int → CollectionState → Bool
  | .beatRule missions_to_beat _, player => fun state =>
      state.has_all (missions_to_beat.val.map (fun m => m.beat_item)) player
  | .countRule missions_to_count target_amount _, player => fun state =>
      decide (target_amount ≤ (hasCount state missions_to_count.val player : Int))
  | .subRule rules_to_check target_amount, player =>
      let sub_lambdas := lambdaList rules_to_check player
      fun state =>
        decide (target_amount ≤ (trueCount (sub_lambdas.map (fun f => f state)) : Int))

/-- Python `[rule.to_lambda(player) for rule in rules_to_check]`. -/
def lambdaList : List EntryRule → Int → List (CollectionState → Bool)
  | [], _ => []
  | r :: rs, player => r.to_lambda player :: lambdaList rs player

end

mutual

/-- All missions referenced by a live rule's mission sets (used to state the
injectivity and state-consistency hypotheses of the agreement theorems). -/
def EntryRule.allMissions : EntryRule → Finset SC2MOGenMission
  | .beatRule missions_to_beat _ => missions_to_beat
  | .countRule missions_to_count _ _ => missions_to_count
  | .subRule rules_to_check _ => allMissionsList rules_to_check

/-- Union of `allMissions` over a list of rules. -/
def allMissionsList : List EntryRule → Finset SC2MOGenMission
  | [] => ∅
  | r :: rs => r.allMissions ∪ allMissionsList rs

end

/-- A generic structured payload value: a tree of ints, strings, lists and
string-keyed mappings (the slot-data transport format). -/
inductive Value where
  | intVal : Int → Value
  | strVal : String → Value
  | listVal : List Value → Value
  | dictVal : List (String × Value) → Value

/-- First-match lookup in a string-keyed mapping (Python dict indexing /
`in`; dict keys are unique, so first match is the match). -/
def dictLookup (d : List (String × Value)) (k : String) : Option Value :=
  match d with
  | [] => none
  | kv :: rest => if kv.1 = k then some kv.2 else dictLookup rest k

/-- Reads an int payload value. -/
def Value.asInt : Value → Option Int
  | .intVal n => some n
  | _ => none

/-- Reads a list-of-ints payload value (the transported form of a
`mission_ids` set). -/
def Value.asIntList : Value → Option (List Int)
  | .listVal vs => intListAux vs
  | _ => none
where
  intListAux : List Value → Option (List Int)
  | [] => some []
  | v :: rest =>
      match v.asInt, intListAux rest with
      | some n, some ns => some (n :: ns)
      | _, _ => none

/-- Reads a visual-requirement payload entry: a literal string label or an
integer mission id. -/
def Value.asReq : Value → Option (String ⊕ Int)
  | .strVal s => some (.inl s)
  | .intVal n => some (.inr n)
  | _ => none

/-- Reads a list of visual-requirement payload entries. -/
def Value.asReqList : Value → Option (List (String ⊕ Int))
  | .listVal vs => reqListAux vs
  | _ => none
where
  reqListAux : List Value → Option (List (String ⊕ Int))
  | [] => some []
  | v :: rest =>
      match v.asReq, reqListAux rest with
      | some r, some rs => some (r :: rs)
      | _, _ => none

/-- Python `BeatMissionsRuleData(**rule_data)`: keyword construction of a beat
leaf.  It requires the payload's keys to be exactly the dataclass fields
`mission_ids` and `visual_reqs` (a missing or unexpected keyword raises). -/
def parseBeatLeaf (fields : List (String × Value)) : Option RuleData :=
  if fields.all (fun kv => kv.1 = "mission_ids" ∨ kv.1 = "visual_reqs") then
    match dictLookup fields "mission_ids", dictLookup fields "visual_reqs" with
    | some mi, some vr =>
        match mi.asIntList, vr.asReqList with
        | some ids, some reqs => some (.beatData ids.toFinset reqs)
        | _, _ => none
    | _, _ => none
  else none

/-- Python `CountMissionsRuleData(**rule_data)`: keyword construction of a count
leaf; the payload's keys must be exactly `mission_ids`, `amount` and
`visual_reqs`. -/
def parseCountLeaf (fields : List (String × Value)) : Option RuleData :=
  if fields.all
      (fun kv => kv.1 = "mission_ids" ∨ kv.1 = "amount" ∨ kv.1 = "visual_reqs") then
    match dictLookup fields "mission_ids", dictLookup fields "amount",
        dictLookup fields "visual_reqs" with
    | some mi, some am, some vr =>
        match mi.asIntList, am.asInt, vr.asReqList with
        | some ids, some amount, some reqs => some (.countData ids.toFinset amount reqs)
        | _, _, _ => none
    | _, _, _ => none
  else none

/-- A value found by `dictLookup` is a strict subterm of the mapping. -/
theorem sizeOf_dictLookup :
    ∀ (d : List (String × Value)) (k : String) (v : Value),
      dictLookup d k = some v → sizeOf v < sizeOf d
  | kv :: rest, k, v, h => by
      by_cases hk : kv.1 = k
      · simp only [dictLookup, hk, if_pos] at h
        cases h
        cases kv
        simp
        omega
      · simp only [dictLookup, hk, if_neg, not_false_iff] at h
        have := sizeOf_dictLookup rest k v h
        simp
        omega

mutual

/-- Python `SubRuleRuleData.parse_from_dict`: reads `data["amount"]`, then parses
each entry of `data["sub_rules"]`; any failure (missing key, wrong shape)
aborts the whole parse with no partial result. -/
def SubRuleRuleData.parse_from_dict (data : List (String × Value)) : Option RuleData :=
  match dictLookup data "amount" with
  | none => none
  | some amountVal =>
      match amountVal.asInt with
      | none => none
      | some amount =>
          match h : dictLookup data "sub_rules" with
          | none => none
          | some (Value.listVal rawRules) =>
              match parseRuleList rawRules with
              | none => none
              | some subs => some (.subData subs amount)
          | some _ => none
termination_by sizeOf data
decreasing_by
  have h1 := sizeOf_dictLookup data "sub_rules" _ h
  simp only [Value.listVal.sizeOf_spec] at h1
  omega

/-- The structural dispatch on one nested payload: `sub_rules` present →
recurse as a sub rule; else `amount` present → count leaf; else beat
leaf.  A non-mapping payload raises. -/
def parseRule : Value → Option RuleData
  | .dictVal fields =>
      if (dictLookup fields "sub_rules").isSome then SubRuleRuleData.parse_from_dict fields
      else if (dictLookup fields "amount").isSome then parseCountLeaf fields
      else parseBeatLeaf fields
  | _ => none
termination_by v => sizeOf v
decreasing_by
  simp

/-- Parses each entry of a `sub_rules` payload list, failing the whole list
on the first failing entry. -/
def parseRuleList : List Value → Option (List RuleData)
  | [] => some []
  | v :: rest =>
      match parseRule v, parseRuleList rest with
      | some r, some rs => some (r :: rs)
      | _, _ => none
termination_by vs => sizeOf vs
decreasing_by
  all_goals (simp; try omega)

end

/-- The payload form of a visual requirement. -/
def reqToVal : String ⊕ Int → Value
  | .inl s => .strVal s
  | .inr n => .intVal n

mutual

/-- Modelled from the spec: the serializer that ships a data rule as a
generic string-keyed payload is not part of this file of the repository;
the spec describes it as emitting fields `sub_rules` and `amount` for a sub
rule and each leaf as its field mapping.  Mission-id sets are transported
as integer lists (emitted here in sorted order; the receiving dataclass
field is a set, so order is irrelevant). -/
def RuleData.serialize : RuleData → List (String × Value)
  | .beatData mission_ids visual_reqs =>
      [("mission_ids", .listVal ((mission_ids.sort (· ≤ ·)).map Value.intVal)),
       ("visual_reqs", .listVal (visual_reqs.map reqToVal))]
  | .countData mission_ids amount visual_reqs =>
      [("mission_ids", .listVal ((mission_ids.sort (· ≤ ·)).map Value.intVal)),
       ("amount", .intVal amount),
       ("visual_reqs", .listVal (visual_reqs.map reqToVal))]
  | .subData sub_rules amount =>
      [("sub_rules", .listVal (serializeList sub_rules)),
       ("amount", .intVal amount)]

/-- Modelled from the spec: serialization of a `sub_rules` child list, each
child as a nested mapping. -/
def serializeList : List RuleData → List Value
  | [] => []
  | r :: rs => .dictVal r.serialize :: serializeList rs

end

/-- Python `sep.join(parts)`: empty for no parts, otherwise the parts
interleaved with the separator. -/
def pyJoin (sep : String) : List String → String
  | [] => ""
  | [s] => s
  | s :: rest => s ++ sep ++ pyJoin sep rest

/-- Python `" ".join("" for _ in range(indents))`: the indent prefix used by every
tooltip, built by joining `indents` empty strings with a one-space
separator. -/
def indentString (indents : Nat) : String :=
  pyJoin " " (List.replicate indents "")

/-- Python `missions[req].mission_name if type(req) == int else req`: label
resolution of a visual requirement (the id → mission dictionary is modelled
by its lookup function; the caller contract requires every embedded id to
be present). -/
def reqLabel (missions : Int → SC2Mission) : String ⊕ Int → String
  | .inl s => s
  | .inr i => (missions i).mission_name

mutual

/-- The tooltip renderer of the data hierarchy, following the Python text
generation exactly: beat renders `Beat {label}` for a single requirement
and a `Beat all of these:` bullet list otherwise; count chooses `all`
wording when the amount covers every candidate and singular `mission` for
amount 1; sub collapses a single-child require-all wrapper to the child's
tooltip and otherwise renders a `Fulfill {amount} of these conditions:`
bullet list with the children rendered two indent levels deeper. -/
def RuleData.tooltip : RuleData → Nat → (Int → SC2Mission) → String
  | .beatData _ visual_reqs, indents, missions =>
      let indent := indentString indents
      match visual_reqs with
      | [req] => "Beat " ++ reqLabel missions req
      | _ =>
          "Beat all of these:\n" ++ indent ++ "- " ++
            pyJoin ("\n" ++ indent ++ "- ") (visual_reqs.map (reqLabel missions))
  | .countData mission_ids amount visual_reqs, indents, missions =>
      let indent := indentString indents
      let amountStr := if amount = (mission_ids.card : Int) then "all" else toString amount
      match visual_reqs with
      | [req] =>
          let req_str := reqLabel missions req
          if amount = 1 then "Beat " ++ req_str
          else "Beat " ++ amountStr ++ " missions from " ++ req_str
      | _ =>
          (if amount = 1 then "Beat " ++ amountStr ++ " mission from:\n" ++ indent ++ "- "
           else "Beat " ++ amountStr ++ " missions from:\n" ++ indent ++ "- ") ++
            pyJoin ("\n" ++ indent ++ "- ") (visual_reqs.map (reqLabel missions))
  | .subData sub_rules amount, indents, missions =>
      let indent := indentString indents
      if amount = (sub_rules.length : Int) ∧ amount = 1 then
        tooltipHead sub_rules indents missions
      else
        let amountStr := if amount = (sub_rules.length : Int) then "all" else toString amount
        "Fulfill " ++ amountStr ++ " of these conditions:\n" ++ indent ++ "- " ++
          pyJoin ("\n" ++ indent ++ "- ") (tooltipList sub_rules (indents + 2) missions)

/-- Python `self.sub_rules[0].tooltip(indents, missions)`: the delegation target of
the single-child require-all collapse (only reached on nonempty lists). -/
def tooltipHead : List RuleData → Nat → (Int → SC2Mission) → String
  | [], _, _ => ""
  | r :: _, indents, missions => r.tooltip indents missions

/-- Python `[rule.tooltip(indents + 2, missions) for rule in sub_rules]` rendered
texts of the children of a sub rule (the caller passes `indents + 2`). -/
def tooltipList : List RuleData → Nat → (Int → SC2Mission) → List String
  | [], _, _ => []
  | r :: rs, indents, missions => r.tooltip indents missions :: tooltipList rs indents missions

end

/-! ### Concrete data used by witnesses and scenario checks -/

/-- A concrete mission "Alpha" with id 1. -/
def mAlpha : SC2MOGenMission := ⟨⟨1, "Alpha"⟩, "Beat Alpha"⟩

/-- A concrete mission "Beta" with id 2. -/
def mBeta : SC2MOGenMission := ⟨⟨2, "Beta"⟩, "Beat Beta"⟩

/-- A concrete mission-name lookup for tooltip scenarios. -/
def missionTable : Int → SC2Mission :=
  fun i => if i = 1 then ⟨1, "Alpha"⟩ else ⟨2, "Beta"⟩

/-! ### C3: the construction-time clamp -/

/-- C3: for every construction of `CountMissionsEntryRule` or
`SubRuleEntryRule` over a collection of size N, a supplied target of `-1`
or one greater than N is stored as exactly N, and any other supplied target
is stored unchanged.  (The embedding is purely functional, so the stored
threshold is by construction never changed afterwards: every operation on
`EntryRule` is a pure function of the constructed value.) -/
theorem clamp_invariant :
    ∀ (ms : Finset SC2MOGenMission) (t : Int) (reqs : List (String ⊕ SC2MOGenMission))
      (rules : List EntryRule),
      ((t = -1 ∨ (ms.card : Int) < t) →
        (CountMissionsEntryRule.init ms t reqs).storedTarget = (ms.card : Int))
      ∧ (t ≠ -1 → t ≤ (ms.card : Int) →
        (CountMissionsEntryRule.init ms t reqs).storedTarget = t)
      ∧ ((t = -1 ∨ (rules.length : Int) < t) →
        (SubRuleEntryRule.init rules t).storedTarget = (rules.length : Int))
      ∧ (t ≠ -1 → t ≤ (rules.length : Int) →
        (SubRuleEntryRule.init rules t).storedTarget = t) := by
  intro ms t reqs rules
  simp only [CountMissionsEntryRule.init, SubRuleEntryRule.init, EntryRule.storedTarget,
    gt_iff_lt]
  refine ⟨fun h => ?_, fun h1 h2 => ?_, fun h => ?_, fun h1 h2 => ?_⟩
  · rw [if_pos h]
  · rw [if_neg (by push_neg; exact ⟨h1, h2⟩)]
  · rw [if_pos h]
  · rw [if_neg (by push_neg; exact ⟨h1, h2⟩)]

/-- Witness for C3 at a concrete input: a supplied target of 5 over the
two-mission collection {Alpha, Beta} is stored as 2. -/
theorem clamp_invariant_witness :
    (CountMissionsEntryRule.init {mAlpha, mBeta} 5 []).storedTarget
      = (({mAlpha, mBeta} : Finset SC2MOGenMission).card : Int) :=
  (clamp_invariant {mAlpha, mBeta} 5 [] []).1 (Or.inr (by decide))

/-! ### C4: superset law and monotonicity under set inclusion -/

mutual

/-- Monotonicity of live-rule evaluation in the beaten set. -/
theorem liveRule_fulfilled_mono :
    ∀ (r : EntryRule) (S T : Finset SC2MOGenMission),
      S ⊆ T → r.is_fulfilled S = true → r.is_fulfilled T = true
  | .beatRule ms reqs, S, T, hst, h => by
      simp only [EntryRule.is_fulfilled, decide_eq_true_eq] at h ⊢
      exact h.trans hst
  | .countRule ms t reqs, S, T, hst, h => by
      simp only [EntryRule.is_fulfilled, decide_eq_true_eq] at h ⊢
      refine h.trans ?_
      exact_mod_cast Finset.card_le_card (Finset.inter_subset_inter hst (Finset.Subset.refl ms))
  | .subRule rules t, S, T, hst, h => by
      simp only [EntryRule.is_fulfilled, decide_eq_true_eq] at h ⊢
      refine h.trans ?_
      exact_mod_cast fulfilledCount_mono rules S T hst

/-- Monotonicity of the fulfilled-children count in the beaten set. -/
theorem fulfilledCount_mono :
    ∀ (rules : List EntryRule) (S T : Finset SC2MOGenMission),
      S ⊆ T → fulfilledCount rules S ≤ fulfilledCount rules T
  | [], _, _, _ => Nat.le_refl _
  | r :: rs, S, T, hst => by
      have htail := fulfilledCount_mono rs S T hst
      simp only [fulfilledCount]
      by_cases hr : r.is_fulfilled S = true
      · have hhead := liveRule_fulfilled_mono r S T hst hr
        simp only [hr, hhead, if_true]
        omega
      · simp only [Bool.not_eq_true] at hr
        by_cases hr2 : r.is_fulfilled T = true <;> simp only [hr, hr2] <;> simp <;> omega

end

mutual

/-- Monotonicity of data-rule evaluation in the beaten id set. -/
theorem dataRule_fulfilled_mono :
    ∀ (d : RuleData) (S T : Finset Int),
      S ⊆ T → d.is_fulfilled S = true → d.is_fulfilled T = true
  | .beatData ids reqs, S, T, hst, h => by
      simp only [RuleData.is_fulfilled, decide_eq_true_eq] at h ⊢
      exact h.trans hst
  | .countData ids t reqs, S, T, hst, h => by
      simp only [RuleData.is_fulfilled, decide_eq_true_eq] at h ⊢
      refine h.trans ?_
      exact_mod_cast Finset.card_le_card (Finset.inter_subset_inter hst (Finset.Subset.refl ids))
  | .subData subs t, S, T, hst, h => by
      simp only [RuleData.is_fulfilled, decide_eq_true_eq] at h ⊢
      refine h.trans ?_
      exact_mod_cast dataFulfilledCount_mono subs S T hst

/-- Monotonicity of the fulfilled-children count of data rules. -/
theorem dataFulfilledCount_mono :
    ∀ (subs : List RuleData) (S T : Finset Int),
      S ⊆ T → dataFulfilledCount subs S ≤ dataFulfilledCount subs T
  | [], _, _, _ => Nat.le_refl _
  | r :: rs, S, T, hst => by
      have htail := dataFulfilledCount_mono rs S T hst
      simp only [dataFulfilledCount]
      by_cases hr : r.is_fulfilled S = true
      · have hhead := dataRule_fulfilled_mono r S T hst hr
        simp only [hr, hhead, if_true]
        omega
      · simp only [Bool.not_eq_true] at hr
        by_cases hr2 : r.is_fulfilled T = true <;> simp only [hr, hr2] <;> simp <;> omega

end

/-- C4: a beat rule is fulfilled exactly when the beaten set contains its
required set (shown for the live and the data form), and every rule variant
of either hierarchy is monotone: fulfilled on S stays fulfilled on every
superset of S. -/
theorem superset_law_and_monotonicity :
    (∀ (ms : Finset SC2MOGenMission) (reqs : List (String ⊕ SC2MOGenMission))
        (S : Finset SC2MOGenMission),
      (EntryRule.beatRule ms reqs).is_fulfilled S = true ↔ ms ⊆ S)
    ∧ (∀ (ids : Finset Int) (reqs : List (String ⊕ Int)) (S : Finset Int),
      (RuleData.beatData ids reqs).is_fulfilled S = true ↔ ids ⊆ S)
    ∧ (∀ (r : EntryRule) (S T : Finset SC2MOGenMission),
      S ⊆ T → r.is_fulfilled S = true → r.is_fulfilled T = true)
    ∧ (∀ (d : RuleData) (S T : Finset Int),
      S ⊆ T → d.is_fulfilled S = true → d.is_fulfilled T = true) := by
  refine ⟨fun ms reqs S => ?_, fun ids reqs S => ?_,
    liveRule_fulfilled_mono, dataRule_fulfilled_mono⟩ <;>
    simp [EntryRule.is_fulfilled, RuleData.is_fulfilled]

/-- Witness for C4 at a concrete input: a count rule requiring 1 of
{Alpha}, fulfilled on {Alpha}, stays fulfilled on the superset
{Alpha, Beta}. -/
theorem superset_law_and_monotonicity_witness :
    (EntryRule.countRule {mAlpha} 1 []).is_fulfilled {mAlpha, mBeta} = true :=
  superset_law_and_monotonicity.2.2.1 (EntryRule.countRule {mAlpha} 1 [])
    {mAlpha} {mAlpha, mBeta} (by decide) (by decide)

/-! ### C1: conversion fidelity of `to_slot_data` -/

/-- Under ids injective on `ms ∪ S`, comparing id images preserves the
superset test of a beat rule. -/
theorem image_subset_iff_of_injOn (ms S : Finset SC2MOGenMission)
    (hinj : Set.InjOn (fun m : SC2MOGenMission => m.mission.id) ↑(ms ∪ S)) :
    ms.image (fun m => m.mission.id) ⊆ S.image (fun m => m.mission.id) ↔ ms ⊆ S := by
  constructor
  · intro h m hm
    have h2 : m.mission.id ∈ S.image (fun m => m.mission.id) :=
      h (Finset.mem_image_of_mem _ hm)
    obtain ⟨m2, hm2, he⟩ := Finset.mem_image.mp h2
    have hme : m2 = m := by
      refine hinj ?_ ?_ he
      · simp only [Finset.coe_union, Set.mem_union, Finset.mem_coe]
        exact Or.inr hm2
      · simp only [Finset.coe_union, Set.mem_union, Finset.mem_coe]
        exact Or.inl hm
    rw [hme] at hm2
    exact hm2
  · exact Finset.image_subset_image

/-- Under ids injective on `ms ∪ S`, the id image of an intersection has
the cardinality of the intersection. -/
theorem card_inter_image (ms S : Finset SC2MOGenMission)
    (hinj : Set.InjOn (fun m : SC2MOGenMission => m.mission.id) ↑(ms ∪ S)) :
    ((S.image (fun m => m.mission.id)) ∩ (ms.image (fun m => m.mission.id))).card
      = (S ∩ ms).card := by
  have himg : (S ∩ ms).image (fun m => m.mission.id)
      = S.image (fun m => m.mission.id) ∩ ms.image (fun m => m.mission.id) := by
    apply Finset.Subset.antisymm
    · intro x hx
      simp only [Finset.mem_image, Finset.mem_inter] at hx ⊢
      obtain ⟨m, ⟨hmS, hmm⟩, he⟩ := hx
      exact ⟨⟨m, hmS, he⟩, ⟨m, hmm, he⟩⟩
    · intro x hx
      simp only [Finset.mem_inter, Finset.mem_image] at hx ⊢
      obtain ⟨⟨a, haS, hae⟩, ⟨b, hbm, hbe⟩⟩ := hx
      have hab : a = b := by
        refine hinj ?_ ?_ (by simp only []; rw [hae, hbe])
        · simp only [Finset.coe_union, Set.mem_union, Finset.mem_coe]
          exact Or.inr haS
        · simp only [Finset.coe_union, Set.mem_union, Finset.mem_coe]
          exact Or.inl hbm
      exact ⟨a, ⟨haS, hab ▸ hbm⟩, hae⟩
  rw [← himg]
  apply Finset.card_image_of_injOn
  refine hinj.mono ?_
  intro x hx
  simp only [Finset.coe_inter, Set.mem_inter_iff, Finset.mem_coe] at hx
  simp only [Finset.coe_union, Set.mem_union, Finset.mem_coe]
  exact Or.inl hx.2

mutual

/-- Data-side evaluation of a converted rule agrees with live evaluation,
given ids injective on the rule's missions together with the beaten set. -/
theorem to_slot_data_fulfilled :
    ∀ (r : EntryRule) (S : Finset SC2MOGenMission),
      Set.InjOn (fun m : SC2MOGenMission => m.mission.id) ↑(r.allMissions ∪ S) →
      (r.to_slot_data).is_fulfilled (S.image (fun m => m.mission.id)) = r.is_fulfilled S
  | .beatRule ms reqs, S, hinj => by
      simp only [EntryRule.to_slot_data, EntryRule.is_fulfilled, RuleData.is_fulfilled]
      exact decide_eq_decide.mpr
        (image_subset_iff_of_injOn ms S (by simpa [EntryRule.allMissions] using hinj))
  | .countRule ms t reqs, S, hinj => by
      simp only [EntryRule.to_slot_data, EntryRule.is_fulfilled, RuleData.is_fulfilled]
      rw [card_inter_image ms S (by simpa [EntryRule.allMissions] using hinj)]
  | .subRule rules t, S, hinj => by
      simp only [EntryRule.to_slot_data, EntryRule.is_fulfilled, RuleData.is_fulfilled]
      rw [slotDataList_fulfilledCount rules S (by simpa [EntryRule.allMissions] using hinj)]

/-- The fulfilled-children count survives conversion to slot data. -/
theorem slotDataList_fulfilledCount :
    ∀ (rules : List EntryRule) (S : Finset SC2MOGenMission),
      Set.InjOn (fun m : SC2MOGenMission => m.mission.id) ↑(allMissionsList rules ∪ S) →
      dataFulfilledCount (slotDataList rules) (S.image (fun m => m.mission.id))
        = fulfilledCount rules S
  | [], _, _ => rfl
  | r :: rs, S, hinj => by
      have hhead := to_slot_data_fulfilled r S (hinj.mono (by
        intro x hx
        simp only [Finset.coe_union, Set.mem_union, Finset.mem_coe, allMissionsList,
          Finset.mem_union] at hx ⊢
        tauto))
      have htail := slotDataList_fulfilledCount rs S (hinj.mono (by
        intro x hx
        simp only [Finset.coe_union, Set.mem_union, Finset.mem_coe, allMissionsList,
          Finset.mem_union] at hx ⊢
        tauto))
      simp only [slotDataList, dataFulfilledCount, fulfilledCount, hhead, htail]

end

/-- C1: for every live rule and every completed mission set, provided
distinct missions occurring in the rule or the completed set have distinct
ids, live evaluation agrees with data-side evaluation of the converted rule
on the id image of the completed set. -/
theorem conversion_fidelity (r : EntryRule) (S : Finset SC2MOGenMission)
    (hinj : Set.InjOn (fun m : SC2MOGenMission => m.mission.id) ↑(r.allMissions ∪ S)) :
    r.is_fulfilled S = (r.to_slot_data).is_fulfilled (S.image (fun m => m.mission.id)) :=
  (to_slot_data_fulfilled r S hinj).symm

/-- Ids injective in the elementwise sense on a finite mission set are
injective on its coercion (used to discharge the hypothesis of
`conversion_fidelity` at concrete inputs). -/
theorem injOn_coe_of_forall (fs : Finset SC2MOGenMission)
    (h : ∀ a ∈ fs, ∀ b ∈ fs, a.mission.id = b.mission.id → a = b) :
    Set.InjOn (fun m : SC2MOGenMission => m.mission.id) ↑fs :=
  fun a ha b hb hab => h a (Finset.mem_coe.mp ha) b (Finset.mem_coe.mp hb) hab

/-- Witness for C1 at a concrete input: a beat rule over {Alpha, Beta}
against the completed set {Alpha}, with distinct ids 1 and 2. -/
theorem conversion_fidelity_witness :
    (BeatMissionsEntryRule.init {mAlpha, mBeta} []).is_fulfilled {mAlpha}
      = ((BeatMissionsEntryRule.init {mAlpha, mBeta} []).to_slot_data).is_fulfilled
          (Finset.image (fun m => m.mission.id) {mAlpha}) :=
  conversion_fidelity (BeatMissionsEntryRule.init {mAlpha, mBeta} []) {mAlpha}
    (injOn_coe_of_forall _ (by decide))

/-! ### C2: the compiled predicate agrees with set evaluation -/

mutual

/-- The compiled predicate of a live rule agrees with set evaluation on any
completed set consistent with the state's held tokens (`has` true exactly
on the completed missions among the rule's missions, `has_all` the
conjunction of `has` over the batch). -/
theorem to_lambda_agrees :
    ∀ (r : EntryRule) (p : Int) (st : CollectionState) (S : Finset SC2MOGenMission),
      (∀ m ∈ r.allMissions, st.has m.beat_item p = decide (m ∈ S)) →
      (∀ toks : Multiset String, st.has_all toks p = decide (∀ t ∈ toks, st.has t p = true)) →
      r.to_lambda p st = r.is_fulfilled S
  | .beatRule ms reqs, p, st, S, hhas, hall => by
      simp only [EntryRule.to_lambda, EntryRule.is_fulfilled]
      rw [hall]
      apply decide_eq_decide.mpr
      constructor
      · intro h m hm
        have h2 := h m.beat_item
          (Multiset.mem_map_of_mem _ (Finset.mem_val.mpr hm))
        rw [hhas m (by simpa [EntryRule.allMissions] using hm)] at h2
        exact of_decide_eq_true h2
      · intro hsub t ht
        obtain ⟨m, hm, rfl⟩ := Multiset.mem_map.mp ht
        rw [hhas m (by simpa [EntryRule.allMissions] using Finset.mem_val.mp hm)]
        exact decide_eq_true (hsub (Finset.mem_val.mp hm))
  | .countRule ms t reqs, p, st, S, hhas, hall => by
      simp only [EntryRule.to_lambda, EntryRule.is_fulfilled]
      have hc : hasCount st ms.val p = (S ∩ ms).card := by
        unfold hasCount
        have hmc : Multiset.map (fun m => if st.has m.beat_item p then 1 else 0) ms.val
            = Multiset.map (fun m => if m ∈ S then 1 else 0) ms.val := by
          apply Multiset.map_congr rfl
          intro m hm
          rw [hhas m (by simpa [EntryRule.allMissions] using Finset.mem_val.mp hm)]
          simp
        rw [hmc]
        have hsum : (Multiset.map (fun m => if m ∈ S then 1 else 0) ms.val).sum
            = ∑ m ∈ ms, if m ∈ S then 1 else 0 := rfl
        rw [hsum, ← Finset.card_filter, Finset.filter_mem_eq_inter, Finset.inter_comm]
      rw [hc]
  | .subRule rules t, p, st, S, hhas, hall => by
      simp only [EntryRule.to_lambda, EntryRule.is_fulfilled]
      rw [lambdaList_trueCount rules p st S
        (by simpa [EntryRule.allMissions] using hhas) hall]

/-- The number of compiled child predicates answering true equals the
number of fulfilled children. -/
theorem lambdaList_trueCount :
    ∀ (rules : List EntryRule) (p : Int) (st : CollectionState) (S : Finset SC2MOGenMission),
      (∀ m ∈ allMissionsList rules, st.has m.beat_item p = decide (m ∈ S)) →
      (∀ toks : Multiset String, st.has_all toks p = decide (∀ t ∈ toks, st.has t p = true)) →
      trueCount ((lambdaList rules p).map (fun f => f st)) = fulfilledCount rules S
  | [], _, _, _, _, _ => rfl
  | r :: rs, p, st, S, hhas, hall => by
      have hhead := to_lambda_agrees r p st S
        (fun m hm => hhas m (by
          simp only [allMissionsList, Finset.mem_union]
          exact Or.inl hm)) hall
      have htail := lambdaList_trueCount rs p st S
        (fun m hm => hhas m (by
          simp only [allMissionsList, Finset.mem_union]
          exact Or.inr hm)) hall
      simp only [lambdaList, List.map, trueCount, fulfilledCount, hhead, htail]

end

/-- C2: for every live rule, player and state consistent with a completed
set, the compiled predicate evaluates exactly as set-based evaluation. -/
theorem lambda_fulfilled_agreement (r : EntryRule) (p : Int) (st : CollectionState)
    (S : Finset SC2MOGenMission)
    (hhas : ∀ m ∈ r.allMissions, st.has m.beat_item p = decide (m ∈ S))
    (hall : ∀ toks : Multiset String,
      st.has_all toks p = decide (∀ t ∈ toks, st.has t p = true)) :
    r.to_lambda p st = r.is_fulfilled S :=
  to_lambda_agrees r p st S hhas hall

/-- A concrete state holding exactly the completion token of Alpha, with
`has_all` the conjunction of `has`. -/
def stAlpha : CollectionState :=
  ⟨fun tok _ => tok = "Beat Alpha",
   fun toks p => decide (∀ t ∈ toks, (decide (t = "Beat Alpha") : Bool) = true ∧ p = p)⟩

/-- Witness for C2 at a concrete input: a count rule over {Alpha, Beta}
with target 1, against the state holding Alpha's token and the completed
set {Alpha}. -/
theorem lambda_fulfilled_agreement_witness :
    (CountMissionsEntryRule.init {mAlpha, mBeta} 1 []).to_lambda 4 stAlpha
      = (CountMissionsEntryRule.init {mAlpha, mBeta} 1 []).is_fulfilled {mAlpha} :=
  lambda_fulfilled_agreement (CountMissionsEntryRule.init {mAlpha, mBeta} 1 []) 4 stAlpha
    {mAlpha} (by decide) (fun toks => by simp [stAlpha])

/-! ### C5: round-trip of sub-rule data through the generic payload -/

/-- Decoding inverts encoding for integer lists. -/
theorem intListAux_map : ∀ l : List Int,
    Value.asIntList.intListAux (l.map Value.intVal) = some l
  | [] => rfl
  | n :: rest => by
      simp only [List.map, Value.asIntList.intListAux, Value.asInt, intListAux_map rest]

/-- Decoding inverts encoding for visual-requirement lists. -/
theorem reqListAux_map : ∀ l : List (String ⊕ Int),
    Value.asReqList.reqListAux (l.map reqToVal) = some l
  | [] => rfl
  | .inl s :: rest => by
      simp only [List.map, reqToVal, Value.asReqList.reqListAux, Value.asReq,
        reqListAux_map rest]
  | .inr n :: rest => by
      simp only [List.map, reqToVal, Value.asReqList.reqListAux, Value.asReq,
        reqListAux_map rest]

/-- A serialized beat leaf parses back to itself. -/
theorem parseBeatLeaf_serialize (ids : Finset Int) (reqs : List (String ⊕ Int)) :
    parseBeatLeaf (RuleData.serialize (.beatData ids reqs)) = some (.beatData ids reqs) := by
  simp [RuleData.serialize, parseBeatLeaf, dictLookup, Value.asIntList, Value.asReqList,
    intListAux_map, reqListAux_map, Finset.sort_toFinset]

/-- A serialized count leaf parses back to itself. -/
theorem parseCountLeaf_serialize (ids : Finset Int) (amt : Int)
    (reqs : List (String ⊕ Int)) :
    parseCountLeaf (RuleData.serialize (.countData ids amt reqs))
      = some (.countData ids amt reqs) := by
  simp [RuleData.serialize, parseCountLeaf, dictLookup, Value.asIntList, Value.asReqList,
    Value.asInt, intListAux_map, reqListAux_map, Finset.sort_toFinset]

mutual

/-- The structural dispatch parses any serialized data rule back to
itself: a serialized sub rule carries `sub_rules` and is parsed
recursively, a serialized count leaf carries `amount` but no `sub_rules`,
and a serialized beat leaf carries neither. -/
theorem parseRule_serialize : ∀ d : RuleData,
    parseRule (.dictVal d.serialize) = some d
  | .beatData ids reqs => by
      have hleaf := parseBeatLeaf_serialize ids reqs
      simp only [RuleData.serialize] at hleaf ⊢
      simp [parseRule, dictLookup, hleaf]
  | .countData ids amt reqs => by
      have hleaf := parseCountLeaf_serialize ids amt reqs
      simp only [RuleData.serialize] at hleaf ⊢
      simp [parseRule, dictLookup, hleaf]
  | .subData subs amt => by
      have hlist := parseList_serializeList subs
      simp only [RuleData.serialize] at hlist ⊢
      simp [parseRule, SubRuleRuleData.parse_from_dict, dictLookup, Value.asInt, hlist]

/-- A serialized child list parses back to itself, in order. -/
theorem parseList_serializeList : ∀ l : List RuleData,
    parseRuleList (serializeList l) = some l
  | [] => by simp [serializeList, parseRuleList]
  | r :: rs => by
      have hhead := parseRule_serialize r
      have htail := parseList_serializeList rs
      simp only [serializeList, parseRuleList, hhead, htail]

end

/-- C5: parsing the generic payload serialization of any `SubRuleRuleData`
value reproduces it exactly: same amounts, same leaf mission ids, visual
requirements and amounts, same order of children. -/
theorem subrule_roundtrip :
    ∀ (sub_rules : List RuleData) (amount : Int),
      SubRuleRuleData.parse_from_dict (RuleData.serialize (.subData sub_rules amount))
        = some (.subData sub_rules amount) := by
  intro subs amt
  have hlist := parseList_serializeList subs
  simp [RuleData.serialize, SubRuleRuleData.parse_from_dict, dictLookup, Value.asInt, hlist]

/-! ### C6: structural parse dispatch -/

/-- A nested payload holding a `sub_rules` key is dispatched to the
recursive sub-rule parse. -/
theorem parseRule_dispatch_sub (fields : List (String × Value))
    (h : (dictLookup fields "sub_rules").isSome = true) :
    parseRule (.dictVal fields) = SubRuleRuleData.parse_from_dict fields := by
  simp [parseRule, h]

/-- A nested payload with no `sub_rules` key but an `amount` key is
dispatched to count-leaf construction. -/
theorem parseRule_dispatch_count (fields : List (String × Value))
    (h1 : dictLookup fields "sub_rules" = none)
    (h2 : (dictLookup fields "amount").isSome = true) :
    parseRule (.dictVal fields) = parseCountLeaf fields := by
  simp [parseRule, h1, h2]

/-- A nested payload with neither a `sub_rules` nor an `amount` key is
dispatched to beat-leaf construction. -/
theorem parseRule_dispatch_beat (fields : List (String × Value))
    (h1 : dictLookup fields "sub_rules" = none)
    (h2 : dictLookup fields "amount" = none) :
    parseRule (.dictVal fields) = parseBeatLeaf fields := by
  simp [parseRule, h1, h2]

/-- C6: a nested payload mapping with a `sub_rules` key is parsed
recursively as sub-rule data; otherwise one with an `amount` key is parsed
as a count leaf; otherwise as a beat leaf; and the concrete payload
`{"amount": 1, "sub_rules": [{"mission_ids": [5], "visual_reqs": [5]}]}`
parses to sub-rule data of amount 1 with a single beat child of mission id
set {5}. -/
theorem parse_dispatch :
    (∀ fields : List (String × Value), (dictLookup fields "sub_rules").isSome = true →
      parseRule (.dictVal fields) = SubRuleRuleData.parse_from_dict fields)
    ∧ (∀ fields : List (String × Value), dictLookup fields "sub_rules" = none →
        (dictLookup fields "amount").isSome = true →
      parseRule (.dictVal fields) = parseCountLeaf fields)
    ∧ (∀ fields : List (String × Value), dictLookup fields "sub_rules" = none →
        dictLookup fields "amount" = none →
      parseRule (.dictVal fields) = parseBeatLeaf fields)
    ∧ SubRuleRuleData.parse_from_dict
        [("amount", .intVal 1),
         ("sub_rules", .listVal [.dictVal [("mission_ids", .listVal [.intVal 5]),
            ("visual_reqs", .listVal [.intVal 5])]])]
        = some (.subData [.beatData {5} [Sum.inr 5]] 1) := by
  refine ⟨parseRule_dispatch_sub, parseRule_dispatch_count, parseRule_dispatch_beat, ?_⟩
  simp [SubRuleRuleData.parse_from_dict, parseRule, parseRuleList, parseBeatLeaf,
    dictLookup, Value.asInt, Value.asIntList, Value.asIntList.intListAux,
    Value.asReqList, Value.asReqList.reqListAux, Value.asReq]

/-- Witness for C6 at a concrete input: a mapping holding a `sub_rules` key
is dispatched to the recursive sub-rule parse. -/
theorem parse_dispatch_witness :
    parseRule (.dictVal [("sub_rules", Value.listVal [])])
      = SubRuleRuleData.parse_from_dict [("sub_rules", Value.listVal [])] :=
  parse_dispatch.1 [("sub_rules", Value.listVal [])] (by simp [dictLookup])

/-! ### C7: the beat tooltip text -/

/-- Concatenation of a list of strings (the shape "one bullet per
requirement" of the rendered tooltip). -/
def strConcat : List String → String
  | [] => ""
  | s :: rest => s ++ strConcat rest

/-- A separator-prefixed join equals the concatenation of the
separator-prefixed parts, for a nonempty part list. -/
theorem append_pyJoin_eq_strConcat :
    ∀ (rest : List String) (sep s : String),
      sep ++ pyJoin sep (s :: rest) = strConcat ((s :: rest).map (fun x => sep ++ x))
  | [], sep, s => by simp [pyJoin, strConcat, String.append_empty]
  | r :: rs, sep, s => by
      have ih := append_pyJoin_eq_strConcat rs sep r
      simp only [pyJoin, strConcat, List.map] at ih ⊢
      rw [← ih]
      simp [String.append_assoc]

/-- The multi-requirement beat tooltip as one bullet per requirement. -/
theorem beatData_tooltip_multi (ids : Finset Int) (r1 r2 : String ⊕ Int)
    (rest : List (String ⊕ Int)) (indents : Nat) (missions : Int → SC2Mission) :
    (RuleData.beatData ids (r1 :: r2 :: rest)).tooltip indents missions
      = "Beat all of these:" ++
          strConcat ((r1 :: r2 :: rest).map
            (fun r => "\n" ++ indentString indents ++ "- " ++ reqLabel missions r)) := by
  have hjoin := append_pyJoin_eq_strConcat
    ((r2 :: rest).map (reqLabel missions))
    ("\n" ++ indentString indents ++ "- ") (reqLabel missions r1)
  simp only [List.map] at hjoin
  simp only [RuleData.tooltip, List.map]
  have hsplit : ("Beat all of these:\n" : String) = "Beat all of these:" ++ "\n" := rfl
  rw [hsplit,
    String.append_assoc "Beat all of these:" "\n" (indentString indents),
    String.append_assoc "Beat all of these:" ("\n" ++ indentString indents) "- ",
    String.append_assoc "Beat all of these:" ("\n" ++ indentString indents ++ "- "),
    hjoin]
  simp [List.map_map, Function.comp_def]

/-- C7: the beat tooltip renders one requirement as `Beat {label}` and two
or more as `Beat all of these:` followed by one `\n{indent}- {label}`
bullet per requirement; at the indent level whose indent string is two
spaces, requirements labelled Alpha and Beta render exactly as
`Beat all of these:\n  - Alpha\n  - Beta`. -/
theorem beat_tooltip :
    (∀ (ids : Finset Int) (req : String ⊕ Int) (indents : Nat)
        (missions : Int → SC2Mission),
      (RuleData.beatData ids [req]).tooltip indents missions
        = "Beat " ++ reqLabel missions req)
    ∧ (∀ (ids : Finset Int) (r1 r2 : String ⊕ Int) (rest : List (String ⊕ Int))
        (indents : Nat) (missions : Int → SC2Mission),
      (RuleData.beatData ids (r1 :: r2 :: rest)).tooltip indents missions
        = "Beat all of these:" ++
            strConcat ((r1 :: r2 :: rest).map
              (fun r => "\n" ++ indentString indents ++ "- " ++ reqLabel missions r)))
    ∧ indentString 3 = "  "
    ∧ (RuleData.beatData {1, 2} [Sum.inr 1, Sum.inr 2]).tooltip 3 missionTable
        = "Beat all of these:\n  - Alpha\n  - Beta" := by
  refine ⟨fun ids req indents missions => ?_, beatData_tooltip_multi, by decide, by decide⟩
  simp [RuleData.tooltip]

/-! ### C8: malformed payloads fail fast -/

/-- Keyword construction of a count leaf fails when an expected field is
missing or an unexpected field is present. -/
theorem parseCountLeaf_none (fields : List (String × Value))
    (h : dictLookup fields "mission_ids" = none ∨ dictLookup fields "visual_reqs" = none ∨
      fields.all (fun kv => kv.1 = "mission_ids" ∨ kv.1 = "amount" ∨ kv.1 = "visual_reqs")
        = false) :
    parseCountLeaf fields = none := by
  by_cases hc : fields.all
      (fun kv => kv.1 = "mission_ids" ∨ kv.1 = "amount" ∨ kv.1 = "visual_reqs") = true
  · rcases h with h | h | h
    · simp [parseCountLeaf, hc, h]
    · cases hmi : dictLookup fields "mission_ids" <;>
        cases ham : dictLookup fields "amount" <;>
        simp [parseCountLeaf, hc, h, hmi, ham]
    · rw [h] at hc
      exact absurd hc Bool.false_ne_true
  · unfold parseCountLeaf
    rw [if_neg hc]

/-- Keyword construction of a beat leaf fails when an expected field is
missing or an unexpected field is present. -/
theorem parseBeatLeaf_none (fields : List (String × Value))
    (h : dictLookup fields "mission_ids" = none ∨ dictLookup fields "visual_reqs" = none ∨
      fields.all (fun kv => kv.1 = "mission_ids" ∨ kv.1 = "visual_reqs") = false) :
    parseBeatLeaf fields = none := by
  by_cases hc : fields.all (fun kv => kv.1 = "mission_ids" ∨ kv.1 = "visual_reqs") = true
  · rcases h with h | h | h
    · simp [parseBeatLeaf, hc, h]
    · cases hmi : dictLookup fields "mission_ids" <;>
        simp [parseBeatLeaf, hc, h, hmi]
    · rw [h] at hc
      exact absurd hc Bool.false_ne_true
  · unfold parseBeatLeaf
    rw [if_neg hc]

/-- One failing entry aborts the parse of a whole child list. -/
theorem parseRuleList_none :
    ∀ (vs : List Value), (∃ v ∈ vs, parseRule v = none) → parseRuleList vs = none
  | v :: rest, h => by
      obtain ⟨w, hw, hnone⟩ := h
      rcases List.mem_cons.mp hw with rfl | hw2
      · simp [parseRuleList, hnone]
      · have htail := parseRuleList_none rest ⟨w, hw2, hnone⟩
        cases hv : parseRule v <;> simp [parseRuleList, hv, htail]

/-- C8: the parse rejects malformed payloads outright: a top level missing
`amount` or `sub_rules` fails; a leaf dispatched as count or beat fails if
an expected field of that variant is missing or an unexpected field is
present; and a single failing nested payload fails the whole parse, so no
partially parsed tree is produced. -/
theorem malformed_payloads_fail :
    (∀ data : List (String × Value), dictLookup data "amount" = none →
      SubRuleRuleData.parse_from_dict data = none)
    ∧ (∀ data : List (String × Value), dictLookup data "sub_rules" = none →
      SubRuleRuleData.parse_from_dict data = none)
    ∧ (∀ fields : List (String × Value), dictLookup fields "sub_rules" = none →
        (dictLookup fields "amount").isSome = true →
        (dictLookup fields "mission_ids" = none ∨ dictLookup fields "visual_reqs" = none ∨
          fields.all (fun kv => kv.1 = "mission_ids" ∨ kv.1 = "amount" ∨ kv.1 = "visual_reqs")
            = false) →
      parseRule (.dictVal fields) = none)
    ∧ (∀ fields : List (String × Value), dictLookup fields "sub_rules" = none →
        dictLookup fields "amount" = none →
        (dictLookup fields "mission_ids" = none ∨ dictLookup fields "visual_reqs" = none ∨
          fields.all (fun kv => kv.1 = "mission_ids" ∨ kv.1 = "visual_reqs") = false) →
      parseRule (.dictVal fields) = none)
    ∧ (∀ (data : List (String × Value)) (rawRules : List Value),
        dictLookup data "sub_rules" = some (.listVal rawRules) →
        (∃ v ∈ rawRules, parseRule v = none) →
      SubRuleRuleData.parse_from_dict data = none) := by
  refine ⟨fun data h => ?_, fun data h => ?_, fun fields h1 h2 h3 => ?_,
    fun fields h1 h2 h3 => ?_, fun data rawRules h1 h2 => ?_⟩
  · simp [SubRuleRuleData.parse_from_dict, h]
  · cases ham : dictLookup data "amount" with
    | none => simp [SubRuleRuleData.parse_from_dict, ham]
    | some av =>
        cases hai : av.asInt with
        | none => simp [SubRuleRuleData.parse_from_dict, ham, hai]
        | some amount =>
            simp only [SubRuleRuleData.parse_from_dict, ham, hai]
            split <;> simp_all
  · rw [parseRule_dispatch_count fields h1 h2]
    exact parseCountLeaf_none fields h3
  · rw [parseRule_dispatch_beat fields h1 h2]
    exact parseBeatLeaf_none fields h3
  · have hlist := parseRuleList_none rawRules h2
    cases ham : dictLookup data "amount" with
    | none => simp [SubRuleRuleData.parse_from_dict, ham]
    | some av =>
        cases hai : av.asInt with
        | none => simp [SubRuleRuleData.parse_from_dict, ham, hai]
        | some amount =>
            simp only [SubRuleRuleData.parse_from_dict, ham, hai]
            split <;> simp_all [hlist]

/-- Witness for C8 at a concrete input: the empty mapping (no `amount`
key) fails to parse. -/
theorem malformed_payloads_fail_witness :
    SubRuleRuleData.parse_from_dict [] = none :=
  malformed_payloads_fail.1 [] rfl

/-! ### C9: degenerate thresholds -/

/-- Counterexample to C9 as stated: a count rule over the nonempty
collection {Alpha} constructed with the non-negative target 0 stores the
threshold 0 (at most 0), yet the collection is not empty and the supplied
target is not negative — so a stored threshold of at most 0 does not happen
exactly in the two cases the claim lists. -/
theorem degenerate_thresholds_counterexample :
    (CountMissionsEntryRule.init {mAlpha} 0 []).storedTarget ≤ 0
    ∧ ({mAlpha} : Finset SC2MOGenMission) ≠ ∅
    ∧ ¬ ((0 : Int) < 0) := by decide

/-- C9 (amended): construction is total, and the stored threshold is at
most 0 exactly when the collection is empty or the supplied target is
nonpositive and not −1; whenever it is at most 0, `is_fulfilled` holds on
every completed set and `is_always_fulfilled` holds.  (The original claim
said "negative" where only "nonpositive" is correct: a supplied target of 0
over a nonempty collection is also stored as 0.) -/
theorem degenerate_thresholds :
    ∀ (ms : Finset SC2MOGenMission) (t : Int) (reqs : List (String ⊕ SC2MOGenMission))
      (rules : List EntryRule),
      ((CountMissionsEntryRule.init ms t reqs).storedTarget ≤ 0 ↔
        ms = ∅ ∨ (t ≤ 0 ∧ t ≠ -1))
      ∧ ((SubRuleEntryRule.init rules t).storedTarget ≤ 0 ↔
        rules = [] ∨ (t ≤ 0 ∧ t ≠ -1))
      ∧ (∀ S, (CountMissionsEntryRule.init ms t reqs).storedTarget ≤ 0 →
          (CountMissionsEntryRule.init ms t reqs).is_fulfilled S = true)
      ∧ ((CountMissionsEntryRule.init ms t reqs).storedTarget ≤ 0 →
          (CountMissionsEntryRule.init ms t reqs).is_always_fulfilled = true)
      ∧ (∀ S, (SubRuleEntryRule.init rules t).storedTarget ≤ 0 →
          (SubRuleEntryRule.init rules t).is_fulfilled S = true)
      ∧ ((SubRuleEntryRule.init rules t).storedTarget ≤ 0 →
          (SubRuleEntryRule.init rules t).is_always_fulfilled = true) := by
  intro ms t reqs rules
  have key : ∀ (N t2 : Int), 0 ≤ N →
      ((if t2 = -1 ∨ t2 > N then N else t2) ≤ 0 ↔ N = 0 ∨ (t2 ≤ 0 ∧ t2 ≠ -1)) := by
    intro N t2 hN
    split_ifs with hc
    · rcases hc with hc | hc
      · constructor
        · intro h2; exact Or.inl (by omega)
        · intro h2
          rcases h2 with h2 | h2
          · omega
          · omega
      · constructor
        · intro h2; exact Or.inl (by omega)
        · intro h2
          rcases h2 with h2 | h2
          · omega
          · omega
    · push_neg at hc
      constructor
      · intro h2; exact Or.inr ⟨h2, hc.1⟩
      · intro h2
        rcases h2 with h2 | h2
        · omega
        · exact h2.1
  refine ⟨?_, ?_, fun S h => ?_, fun h => ?_, fun S h => ?_, fun h => ?_⟩
  · rw [show (CountMissionsEntryRule.init ms t reqs).storedTarget
        = (if t = -1 ∨ t > (ms.card : Int) then (ms.card : Int) else t) from rfl]
    rw [key (ms.card : Int) t (by positivity)]
    simp [Finset.card_eq_zero]
  · rw [show (SubRuleEntryRule.init rules t).storedTarget
        = (if t = -1 ∨ t > (rules.length : Int) then (rules.length : Int) else t) from rfl]
    rw [key (rules.length : Int) t (by positivity)]
    simp [List.length_eq_zero]
  · simp only [CountMissionsEntryRule.init, EntryRule.storedTarget] at h
    simp only [CountMissionsEntryRule.init, EntryRule.is_fulfilled, decide_eq_true_eq]
    exact le_trans h (Int.natCast_nonneg _)
  · simp only [CountMissionsEntryRule.init, EntryRule.storedTarget] at h
    simp only [CountMissionsEntryRule.init, EntryRule.is_always_fulfilled,
      EntryRule.is_fulfilled, decide_eq_true_eq]
    exact le_trans h (Int.natCast_nonneg _)
  · simp only [SubRuleEntryRule.init, EntryRule.storedTarget] at h
    simp only [SubRuleEntryRule.init, EntryRule.is_fulfilled, decide_eq_true_eq]
    exact le_trans h (Int.natCast_nonneg _)
  · simp only [SubRuleEntryRule.init, EntryRule.storedTarget] at h
    simp only [SubRuleEntryRule.init, EntryRule.is_always_fulfilled,
      EntryRule.is_fulfilled, decide_eq_true_eq]
    exact le_trans h (Int.natCast_nonneg _)

/-- Witness for C9 (amended) at a concrete input: a count rule over the
empty collection with positive target 5 is fulfilled by any completed
set. -/
theorem degenerate_thresholds_witness :
    (CountMissionsEntryRule.init ∅ 5 []).is_fulfilled {mAlpha} = true :=
  (degenerate_thresholds ∅ 5 [] []).2.2.1 {mAlpha} (by decide)

/-! ### C10: the off-by-one indent string -/

/-- Python `" ".join(indents empty strings)` is `max(indents − 1, 0)` spaces. -/
theorem indentString_eq :
    ∀ indents : Nat, indentString indents = String.mk (List.replicate (indents - 1) ' ')
  | 0 => rfl
  | 1 => rfl
  | n + 2 => by
      have ih := indentString_eq (n + 1)
      have h1 : indentString (n + 2) = " " ++ indentString (n + 1) := by
        simp only [indentString, List.replicate_succ, pyJoin, String.empty_append]
      rw [h1, ih]
      show String.mk (' ' :: List.replicate (n + 1 - 1) ' ')
        = String.mk (List.replicate (n + 2 - 1) ' ')
      congr 1

/-- C10: every tooltip builds its indent as `" ".join("" for _ in
range(indents))`, which is `max(indents − 1, 0)` spaces, so bullets at
indent level n are prefixed by exactly n − 1 spaces (empty for n ∈ {0, 1});
children of a sub rule, rendered at `indents + 2`, gain exactly two more
spaces than their parent whenever `indents ≥ 1`. -/
theorem indent_off_by_one :
    (∀ indents : Nat, indentString indents = String.mk (List.replicate (indents - 1) ' '))
    ∧ (∀ indents : Nat, 1 ≤ indents →
        indentString (indents + 2) = indentString indents ++ "  ")
    ∧ (∀ (ids : Finset Int) (r1 r2 : String ⊕ Int) (rest : List (String ⊕ Int))
        (indents : Nat) (missions : Int → SC2Mission),
      (RuleData.beatData ids (r1 :: r2 :: rest)).tooltip indents missions
        = "Beat all of these:" ++
            strConcat ((r1 :: r2 :: rest).map
              (fun r => "\n" ++ String.mk (List.replicate (indents - 1) ' ') ++ "- "
                ++ reqLabel missions r))) := by
  refine ⟨indentString_eq, fun n hn => ?_, fun ids r1 r2 rest indents missions => ?_⟩
  · rw [indentString_eq, indentString_eq]
    have h2 : n + 2 - 1 = (n - 1) + 2 := by omega
    rw [h2, List.replicate_add]
    show String.mk (List.replicate (n - 1) ' ' ++ List.replicate 2 ' ')
      = String.mk (List.replicate (n - 1) ' ') ++ "  "
    rfl
  · rw [beatData_tooltip_multi]
    simp only [indentString_eq]

/-- Witness for C10 at a concrete input: at indent level 3, the two-child
sub tooltip rendered at level 5 gains exactly two spaces. -/
theorem indent_off_by_one_witness :
    indentString (3 + 2) = indentString 3 ++ "  " :=
  indent_off_by_one.2.1 3 (by decide)
